import Mathlib

/-!
Verification of the NBO receipt-breakdown reconciliation core
(`extract_nbo_receipt_breakdown_rows_web` in `src/NBO.py`).

The embedding models the three core components:
* the Match Engine (the candidate walk over `bank_groups[desc]` with the
  global `used_oracle_numbers` / `used_bank_indices` consumption sets),
* the Row Exploder (`build_output_row` plus the per-group override loop),
* the Deduplicator and Renumberer (`drop_duplicates` on
  `["Bank Reference No", "ORACLE NUMBER"]` keeping the first occurrence,
  then `Line No. := 1..N`).

Monetary amounts are modelled as rationals.  The outcome of the numeric
coercions (`int(float(raw))` for the settlement id, `float(raw)` for the
receipt amount) is modelled as an `Option`: `Option.none` stands for a raw
field whose coercion raises (or a missing value), `some v` for a successful
coercion.  Spreadsheet cells distinguish Python `None` from the empty
string `""`; the inductive `Cell` keeps that distinction.
-/

namespace NBO

/-- A settlement-ledger row (one row of `bank_df`), after normalisation.
`oracleParse` is the outcome of `int(float(oracle_raw))` (`Option.none` when
the coercion fails or the field is NA); `receiptParse` is the outcome of
`float(bank_row["Receipt Amount"])`. -/
structure BankRow where
  desc : String
  oracleParse : Option Int
  receiptParse : Option ℚ
  currency : Option String
  accountNumber : Option String
deriving DecidableEq, Repr

/-- A transaction-ledger row (one row of `nbo_df` after filtering and
normalisation).  The date is kept abstract as a string token. -/
structure NboRow where
  date : String
  ref : String
  desc : String
  credit : ℚ
deriving DecidableEq, Repr

/-- One accepted match: the tuple appended to `matched_receipts`, together
with the settlement-ledger position (`bank_idx`) it was accepted from. -/
structure Accepted where
  pos : Nat
  receiptAmt : ℚ
  oracleNum : Int
  currency : Option String
  accountNumber : Option String
deriving DecidableEq, Repr

/-- The global consumption state: `used_oracle_numbers` and
`used_bank_indices`.  Sets are modelled as lists with membership. -/
structure MatchState where
  usedIds : List Int
  usedIdx : List Nat
deriving DecidableEq, Repr

/-- The candidate list `bank_groups.get(desc, [])`: the settlement-ledger
positions whose description equals `desc`, in original ledger order, each
carried together with its row. -/
def bankGroupsFor (bank : List BankRow) (desc : String) : List (Nat × BankRow) :=
  bank.enum.filter (fun p => p.2.desc = desc)

/-- The inner candidate walk of the Match Engine (the `for bank_idx in
bank_groups.get(desc, [])` loop): skip consumed positions, skip unparsable
or consumed settlement ids, default an unparsable receipt amount to 0,
accept otherwise, and break once the cumulative sum reaches
`credit − 0.01`. -/
def matchLoop (credit : ℚ) : List (Nat × BankRow) → MatchState → List Accepted → ℚ →
    List Accepted × MatchState
  | [], st, acc, _ => (acc, st)
  | (i, b) :: rest, st, acc, cum =>
    if i ∈ st.usedIdx then
      matchLoop credit rest st acc cum
    else
      match b.oracleParse with
      | Option.none => matchLoop credit rest st acc cum
      | some n =>
        if n ∈ st.usedIds then
          matchLoop credit rest st acc cum
        else
          let amt := b.receiptParse.getD 0
          let acc' := acc ++ [⟨i, amt, n, b.currency, b.accountNumber⟩]
          let st' : MatchState := ⟨n :: st.usedIds, i :: st.usedIdx⟩
          let cum' := cum + amt
          if credit - 1/100 ≤ cum' then (acc', st')
          else matchLoop credit rest st' acc' cum'

/-- Matching one transaction: run the candidate walk over the candidates
for its description, starting from `matched_receipts = []` and
`cumulative_sum = 0.0`. -/
def matchOne (bank : List BankRow) (t : NboRow) (st : MatchState) :
    List Accepted × MatchState :=
  matchLoop t.credit (bankGroupsFor bank t.desc) st [] 0

/-- The whole run of the Match Engine: transactions processed strictly in
input order, threading the one global consumption state. -/
def matchRun (bank : List BankRow) : List NboRow → MatchState → List (NboRow × List Accepted)
  | [], _ => []
  | t :: ts, st =>
    let r := matchOne bank t st
    (t, r.1) :: matchRun bank ts r.2

/-- A spreadsheet cell that may hold Python `None`, the empty string `""`,
or a value. -/
inductive Cell (α : Type) where
  | null : Cell α
  | blank : Cell α
  | val : α → Cell α
deriving DecidableEq, Repr

/-- One output row (the dictionary built by `build_output_row`). -/
structure OutputRow where
  lineNo : Option Nat
  rowType : String
  code : String
  oracleNumber : Cell Int
  transactionDate : String
  accountCurrencyClearedDate : String
  currency : Option String
  exchangeRateDate : String
  rateType : String
  accountNumber : Option String
  customerName : Option String
  accountCurrencyAmount : Option ℚ
  accountCurrencyAmountCleared : Option ℚ
  clearedDate : String
  valueDate : String
  glDate : String
  ref : String
  desc : String
  creditAmount : Cell ℚ
  receiptAmount : Cell ℚ
  tally : Cell ℚ
deriving DecidableEq, Repr

/-- The row template of `build_output_row` with no overrides (the row
emitted for a transaction with an empty MatchGroup). -/
def buildOutputRow (t : NboRow) : OutputRow where
  lineNo := Option.none
  rowType := "Receipt"
  code := ""
  oracleNumber := Cell.null
  transactionDate := t.date
  accountCurrencyClearedDate := t.date
  currency := Option.none
  exchangeRateDate := t.date
  rateType := "Corporate"
  accountNumber := Option.none
  customerName := Option.none
  accountCurrencyAmount := Option.none
  accountCurrencyAmountCleared := Option.none
  clearedDate := t.date
  valueDate := t.date
  glDate := t.date
  ref := t.ref
  desc := t.desc
  creditAmount := Cell.val t.credit
  receiptAmount := Cell.null
  tally := Cell.null

/-- Rounding to 2 decimal places (`round(x, 2)`). -/
def round2 (q : ℚ) : ℚ := ((round (q * 100) : ℤ) : ℚ) / 100

/-- The overridden row for the `i`-th accepted match of a group of size
`n` with receipt total `total` (the `row_data` dictionary of the exploder
loop). -/
def matchedRow (t : NboRow) (total : ℚ) (n : Nat) (i : Nat) (a : Accepted) : OutputRow :=
  { buildOutputRow t with
    oracleNumber := Cell.val a.oracleNum
    currency := a.currency
    accountNumber := a.accountNumber
    creditAmount := if i = 0 then Cell.val t.credit else Cell.blank
    receiptAmount := Cell.val a.receiptAmt
    tally := if i = n - 1 then Cell.val (round2 (t.credit - total)) else Cell.blank }

/-- The Row Exploder: an empty MatchGroup yields the bare template row; a
non-empty group of size N yields N rows in acceptance order with the
first-row credit-amount and last-row tally suppression rules. -/
def explodeRows (t : NboRow) (g : List Accepted) : List OutputRow :=
  if g = [] then [buildOutputRow t]
  else
    let total := (g.map Accepted.receiptAmt).sum
    g.enum.map (fun p => matchedRow t total g.length p.1 p.2)

/-- The deduplication key: the (`Bank Reference No`, `ORACLE NUMBER`)
pair.  Pandas `drop_duplicates` treats NA values as equal to each other,
which `Cell.null = Cell.null` reproduces. -/
def dedupKey (r : OutputRow) : String × Cell Int := (r.ref, r.oracleNumber)

/-- The first-occurrence filter behind `drop_duplicates(keep="first")`:
drop a row whose key was already kept. -/
def dedupGo (seen : List (String × Cell Int)) : List OutputRow → List OutputRow
  | [] => []
  | r :: rs =>
    if dedupKey r ∈ seen then dedupGo seen rs
    else r :: dedupGo (dedupKey r :: seen) rs

/-- The Deduplicator: `final_df.drop_duplicates(subset=["Bank Reference
No", "ORACLE NUMBER"], keep="first")`. -/
def dedup (rows : List OutputRow) : List OutputRow := dedupGo [] rows

/-- The Renumberer: drop any prior `Line No.` and assign
`range(1, len+1)` over the surviving rows in order. -/
def renumber (rows : List OutputRow) : List OutputRow :=
  rows.enum.map (fun p => { p.2 with lineNo := some (p.1 + 1) })

/-- The flat output-row list before deduplication: every transaction's
exploded rows, concatenated in input order. -/
def allRows (bank : List BankRow) (txns : List NboRow) : List OutputRow :=
  ((matchRun bank txns ⟨[], []⟩).map (fun p => explodeRows p.1 p.2)).flatten

/-- The full core pipeline on already-loaded records: match, explode,
deduplicate, renumber. -/
def pipeline (bank : List BankRow) (txns : List NboRow) : List OutputRow :=
  renumber (dedup (allRows bank txns))

/-- The invariant of one candidate walk: `new` is the list of matches the
walk accepted (beyond the accumulator it started from), and `st'` its final
consumption state. -/
structure LoopSpec (credit : ℚ) (cands : List (Nat × BankRow)) (st : MatchState)
    (cum : ℚ) (new : List Accepted) (st' : MatchState) : Prop where
  ids_eq : st'.usedIds = (new.map Accepted.oracleNum).reverse ++ st.usedIds
  idx_eq : st'.usedIdx = (new.map Accepted.pos).reverse ++ st.usedIdx
  fresh : ∀ a ∈ new, a.oracleNum ∉ st.usedIds ∧ a.pos ∉ st.usedIdx
  ids_nodup : (new.map Accepted.oracleNum).Nodup
  pos_nodup : (new.map Accepted.pos).Nodup
  pos_sub : List.Sublist (new.map Accepted.pos) (cands.map Prod.fst)
  src : ∀ a ∈ new, ∃ b, (a.pos, b) ∈ cands ∧ b.oracleParse = some a.oracleNum ∧
      a.receiptAmt = b.receiptParse.getD 0 ∧ a.currency = b.currency ∧
      a.accountNumber = b.accountNumber
  thresh : ∀ k, k + 1 < new.length →
      cum + ((new.take (k + 1)).map Accepted.receiptAmt).sum < credit - 1/100

/-- Fixture: the settlement ledger of the spec's Scenario A — two records
under description `INV100`, ids 1001 and 1002, amounts 100 and 50. -/
def bankA : List BankRow :=
  [⟨"INV100", some 1001, some 100, Option.none, Option.none⟩,
   ⟨"INV100", some 1002, some 50, Option.none, Option.none⟩]

/-- Fixture: the transaction of the spec's Scenario A — description
`INV100`, credit amount 150. -/
def txnA : NboRow := ⟨"05-Jul-25", "REF1", "INV100", 150⟩

/-- Fixture: the MatchGroup the Match Engine accepts for Scenario A. -/
def groupA : List Accepted :=
  [⟨0, 100, 1001, Option.none, Option.none⟩,
   ⟨1, 50, 1002, Option.none, Option.none⟩]

/-- Fixture: a settlement ledger whose only candidates under `X` have a
consumed id (5) or an unparsable id field. -/
def bankC4 : List BankRow :=
  [⟨"X", some 5, some 10, Option.none, Option.none⟩,
   ⟨"X", Option.none, some 20, Option.none, Option.none⟩]

/-- Fixture: a transaction with description `X` and credit amount 100. -/
def txnC4 : NboRow := ⟨"01-Jul-25", "REFX", "X", 100⟩

/-- Fixture: a one-record settlement ledger under description `OVR` whose
amount 100 overshoots any small credit. -/
def bankC10 : List BankRow :=
  [⟨"OVR", some 77, some 100, Option.none, Option.none⟩]

/-- Fixture: a transaction with credit amount 0, so the stop threshold
`0 − 0.01` is already satisfied by the empty sum. -/
def txnC10 : NboRow := ⟨"02-Jul-25", "REF9", "OVR", 0⟩

/-- Every candidate walk satisfies `LoopSpec`: its result extends the
accumulator by a list of newly accepted matches whose ids and positions
are fresh, pairwise distinct, recorded into the final state, drawn from
the candidate list in order, and whose running sums stay below the stop
threshold except possibly at the last accepted match. -/
theorem matchLoop_spec (credit : ℚ) :
    ∀ (cands : List (Nat × BankRow)) (st : MatchState) (acc : List Accepted) (cum : ℚ),
    ∃ new, (matchLoop credit cands st acc cum).1 = acc ++ new ∧
      LoopSpec credit cands st cum new (matchLoop credit cands st acc cum).2 := by
  intro cands
  induction cands with
  | nil =>
    intro st acc cum
    refine ⟨[], by simp [matchLoop], ?_⟩
    constructor <;> simp [matchLoop]
  | cons c rest ih =>
    obtain ⟨i, b⟩ := c
    intro st acc cum
    by_cases hidx : i ∈ st.usedIdx
    · -- position already consumed: skip
      obtain ⟨new, h1, h2⟩ := ih st acc cum
      have he : matchLoop credit ((i, b) :: rest) st acc cum =
          matchLoop credit rest st acc cum := by
        simp only [matchLoop]
        rw [if_pos hidx]
      rw [he]
      refine ⟨new, h1, ?_⟩
      exact { h2 with
        pos_sub := h2.pos_sub.trans
          (List.Sublist.map Prod.fst (List.sublist_cons_self (i, b) rest))
        src := fun a ha => by
          obtain ⟨bb, hb1, hb2⟩ := h2.src a ha
          exact ⟨bb, List.mem_cons_of_mem _ hb1, hb2⟩ }
    · rcases hob : b.oracleParse with _ | n
      · -- settlement id fails coercion: skip
        obtain ⟨new, h1, h2⟩ := ih st acc cum
        have he : matchLoop credit ((i, b) :: rest) st acc cum =
            matchLoop credit rest st acc cum := by
          simp only [matchLoop]
          rw [if_neg hidx]
          simp only [hob]
        rw [he]
        refine ⟨new, h1, ?_⟩
        exact { h2 with
          pos_sub := h2.pos_sub.trans
            (List.Sublist.map Prod.fst (List.sublist_cons_self (i, b) rest))
          src := fun a ha => by
            obtain ⟨bb, hb1, hb2⟩ := h2.src a ha
            exact ⟨bb, List.mem_cons_of_mem _ hb1, hb2⟩ }
      · by_cases hnid : n ∈ st.usedIds
        · -- settlement id already consumed: skip
          obtain ⟨new, h1, h2⟩ := ih st acc cum
          have he : matchLoop credit ((i, b) :: rest) st acc cum =
              matchLoop credit rest st acc cum := by
            simp only [matchLoop]
            rw [if_neg hidx]
            simp only [hob]
            rw [if_pos hnid]
          rw [he]
          refine ⟨new, h1, ?_⟩
          exact { h2 with
            pos_sub := h2.pos_sub.trans
              (List.Sublist.map Prod.fst (List.sublist_cons_self (i, b) rest))
            src := fun a ha => by
              obtain ⟨bb, hb1, hb2⟩ := h2.src a ha
              exact ⟨bb, List.mem_cons_of_mem _ hb1, hb2⟩ }
        · -- accept the candidate
          by_cases hbr : credit - 1/100 ≤ cum + b.receiptParse.getD 0
          · -- threshold reached: break
            have he : matchLoop credit ((i, b) :: rest) st acc cum =
                (acc ++ [⟨i, b.receiptParse.getD 0, n, b.currency, b.accountNumber⟩],
                  ⟨n :: st.usedIds, i :: st.usedIdx⟩) := by
              simp only [matchLoop]
              rw [if_neg hidx]
              simp only [hob]
              rw [if_neg hnid, if_pos hbr]
            rw [he]
            refine ⟨[⟨i, b.receiptParse.getD 0, n, b.currency, b.accountNumber⟩], rfl, ?_⟩
            constructor
            · simp
            · simp
            · intro a ha
              simp only [List.mem_singleton] at ha
              subst ha
              exact ⟨hnid, hidx⟩
            · simp
            · simp
            · exact List.singleton_sublist.mpr (List.mem_map_of_mem Prod.fst
                (List.mem_cons_self (i, b) rest))
            · intro a ha
              simp only [List.mem_singleton] at ha
              subst ha
              exact ⟨b, by simp, hob, rfl, rfl, rfl⟩
            · intro k hk
              simp at hk
          · -- threshold not reached: accept and continue
            obtain ⟨new, h1, h2⟩ :=
              ih ⟨n :: st.usedIds, i :: st.usedIdx⟩
                (acc ++ [⟨i, b.receiptParse.getD 0, n, b.currency, b.accountNumber⟩])
                (cum + b.receiptParse.getD 0)
            have he : matchLoop credit ((i, b) :: rest) st acc cum =
                matchLoop credit rest ⟨n :: st.usedIds, i :: st.usedIdx⟩
                  (acc ++ [⟨i, b.receiptParse.getD 0, n, b.currency, b.accountNumber⟩])
                  (cum + b.receiptParse.getD 0) := by
              simp only [matchLoop]
              rw [if_neg hidx]
              simp only [hob]
              rw [if_neg hnid, if_neg hbr]
            rw [he]
            refine ⟨⟨i, b.receiptParse.getD 0, n, b.currency, b.accountNumber⟩ :: new,
              by simpa using h1, ?_⟩
            have hfr := h2.fresh
            constructor
            · simp [h2.ids_eq]
            · simp [h2.idx_eq]
            · intro a ha
              rcases List.mem_cons.mp ha with rfl | ha
              · exact ⟨hnid, hidx⟩
              · obtain ⟨hf1, hf2⟩ := hfr a ha
                simp only [List.mem_cons] at hf1 hf2
                exact ⟨fun hmem => hf1 (Or.inr hmem), fun hmem => hf2 (Or.inr hmem)⟩
            · simp only [List.map_cons, List.nodup_cons]
              refine ⟨?_, h2.ids_nodup⟩
              intro hmem
              obtain ⟨a, ha, hae⟩ := List.mem_map.mp hmem
              have := (hfr a ha).1
              simp only [List.mem_cons] at this
              exact this (Or.inl hae)
            · simp only [List.map_cons, List.nodup_cons]
              refine ⟨?_, h2.pos_nodup⟩
              intro hmem
              obtain ⟨a, ha, hae⟩ := List.mem_map.mp hmem
              have := (hfr a ha).2
              simp only [List.mem_cons] at this
              exact this (Or.inl hae)
            · simpa using List.Sublist.cons₂ i h2.pos_sub
            · intro a ha
              rcases List.mem_cons.mp ha with rfl | ha
              · exact ⟨b, by simp, hob, rfl, rfl, rfl⟩
              · obtain ⟨bb, hb1, hb2⟩ := h2.src a ha
                exact ⟨bb, List.mem_cons_of_mem _ hb1, hb2⟩
            · intro k hk
              have hlt : cum + b.receiptParse.getD 0 < credit - 1/100 := lt_of_not_le hbr
              match k with
              | 0 =>
                simpa using hlt
              | Nat.succ j =>
                have hj : j + 1 < new.length := by
                  simpa [Nat.succ_lt_succ_iff] using hk
                have hth := h2.thresh j hj
                calc cum + ((((⟨i, b.receiptParse.getD 0, n, b.currency,
                        b.accountNumber⟩ : Accepted) :: new).take
                        (j + 1 + 1)).map Accepted.receiptAmt).sum
                    = cum + b.receiptParse.getD 0 +
                        ((new.take (j + 1)).map Accepted.receiptAmt).sum := by
                      simp
                      ring
                  _ < credit - 1/100 := hth

/-- One transaction's match satisfies the walk invariant, with the empty
accumulator and zero cumulative sum it starts from. -/
theorem matchOne_spec (bank : List BankRow) (t : NboRow) (st : MatchState) :
    LoopSpec t.credit (bankGroupsFor bank t.desc) st 0
      (matchOne bank t st).1 (matchOne bank t st).2 := by
  obtain ⟨new, h1, h2⟩ := matchLoop_spec t.credit (bankGroupsFor bank t.desc) st [] 0
  have : (matchOne bank t st).1 = new := by simpa [matchOne] using h1
  rw [matchOne] at this ⊢
  rw [this]
  exact h2

/-- Candidate positions for one description are pairwise distinct (they
are drawn from the position-enumeration of the settlement ledger). -/
theorem bankGroupsFor_keys_nodup (bank : List BankRow) (desc : String) :
    ((bankGroupsFor bank desc).map Prod.fst).Nodup := by
  have hsub : List.Sublist ((bankGroupsFor bank desc).map Prod.fst)
      (bank.enum.map Prod.fst) :=
    List.Sublist.map Prod.fst (List.filter_sublist _)
  exact (List.nodup_enum_map_fst bank).sublist hsub

/-- In a list of keyed pairs with pairwise-distinct keys, a key determines
its value. -/
theorem keyed_lookup_unique {l : List (Nat × BankRow)}
    (h : (l.map Prod.fst).Nodup) {i : Nat} {b c : BankRow}
    (hb : (i, b) ∈ l) (hc : (i, c) ∈ l) : b = c := by
  induction l with
  | nil => cases hb
  | cons p rest ih =>
    simp only [List.map_cons, List.nodup_cons] at h
    rcases List.mem_cons.mp hb with rfl | hb'
    · rcases List.mem_cons.mp hc with heq | hc'
      · exact (congrArg Prod.snd heq.symm)
      · exact absurd (List.mem_map_of_mem Prod.fst hc') h.1
    · rcases List.mem_cons.mp hc with rfl | hc'
      · exact absurd (List.mem_map_of_mem Prod.fst hb') h.1
      · exact ih h.2 hb' hc'

/-- Groups produced later in a run are fresh with respect to the state the
run started from (consumption only ever grows). -/
theorem matchRun_fresh (bank : List BankRow) :
    ∀ (txns : List NboRow) (st : MatchState) (p : NboRow × List Accepted),
    p ∈ matchRun bank txns st →
    ∀ a ∈ p.2, a.oracleNum ∉ st.usedIds ∧ a.pos ∉ st.usedIdx := by
  intro txns
  induction txns with
  | nil => intro st p hp; cases hp
  | cons t ts ih =>
    intro st p hp a ha
    rcases List.mem_cons.mp hp with rfl | hp'
    · exact (matchOne_spec bank t st).fresh a ha
    · have h2 := ih (matchOne bank t st).2 p hp' a ha
      have hids := (matchOne_spec bank t st).ids_eq
      have hidx := (matchOne_spec bank t st).idx_eq
      constructor
      · intro hmem
        exact h2.1 (by rw [hids]; exact List.mem_append_right _ hmem)
      · intro hmem
        exact h2.2 (by rw [hidx]; exact List.mem_append_right _ hmem)

/-- Across one run, the accepted groups are pairwise disjoint both in
settlement id and in settlement-ledger position. -/
theorem matchRun_pairwise (bank : List BankRow) :
    ∀ (txns : List NboRow) (st : MatchState),
    (matchRun bank txns st).Pairwise (fun p q =>
      ∀ a ∈ p.2, ∀ c ∈ q.2, a.oracleNum ≠ c.oracleNum ∧ a.pos ≠ c.pos) := by
  intro txns
  induction txns with
  | nil => intro st; simp [matchRun]
  | cons t ts ih =>
    intro st
    rw [matchRun]
    refine List.Pairwise.cons ?_ (ih _)
    intro q hq a ha c hc
    have hfr := matchRun_fresh bank ts (matchOne bank t st).2 q hq c hc
    have hina : a.oracleNum ∈ (matchOne bank t st).2.usedIds := by
      rw [(matchOne_spec bank t st).ids_eq]
      exact List.mem_append_left _ (List.mem_reverse.mpr
        (List.mem_map_of_mem Accepted.oracleNum ha))
    have hinp : a.pos ∈ (matchOne bank t st).2.usedIdx := by
      rw [(matchOne_spec bank t st).idx_eq]
      exact List.mem_append_left _ (List.mem_reverse.mpr
        (List.mem_map_of_mem Accepted.pos ha))
    constructor
    · intro heq
      exact hfr.1 (heq ▸ hina)
    · intro heq
      exact hfr.2 (heq ▸ hinp)

/-- Claim C2: across one entire reconciliation run (a `matchRun` started
from the fresh empty consumption state), no settlement record — identified
by its ledger position, and by its settlement id — is assigned to the
MatchGroup of more than one transaction: the per-transaction groups are
pairwise disjoint in both id and position. -/
theorem C2_global_uniqueness (bank : List BankRow) (txns : List NboRow) :
    (matchRun bank txns ⟨[], []⟩).Pairwise (fun p q =>
      ∀ a ∈ p.2, ∀ c ∈ q.2, a.oracleNum ≠ c.oracleNum ∧ a.pos ≠ c.pos) :=
  matchRun_pairwise bank txns ⟨[], []⟩

/-- Claim C3: the Match Engine accepts a greedy prefix in original ledger
order — the accepted positions form an order-preserving subsequence of the
candidate list for the transaction's description — and the cumulative sum
of accepted receipt amounts is still strictly below `credit − 0.01` after
every accepted candidate except possibly the last, so no candidate is
accepted after the stop threshold has been reached. -/
theorem C3_greedy_scan (bank : List BankRow) (t : NboRow) (st : MatchState) :
    List.Sublist ((matchOne bank t st).1.map Accepted.pos)
      ((bankGroupsFor bank t.desc).map Prod.fst) ∧
    ∀ k, k + 1 < (matchOne bank t st).1.length →
      (((matchOne bank t st).1.take (k + 1)).map Accepted.receiptAmt).sum <
        t.credit - 1/100 := by
  refine ⟨(matchOne_spec bank t st).pos_sub, fun k hk => ?_⟩
  have := (matchOne_spec bank t st).thresh k hk
  simpa using this

/-- Witness for C3 at Scenario A: the accepted positions are a
subsequence of the candidates, and after the first accepted candidate
(which is not the last) the cumulative sum 100 is still below
`150 − 0.01`. -/
theorem C3_greedy_scan_witness :
    List.Sublist ((matchOne bankA txnA ⟨[], []⟩).1.map Accepted.pos)
      ((bankGroupsFor bankA txnA.desc).map Prod.fst) ∧
    (((matchOne bankA txnA ⟨[], []⟩).1.take (0 + 1)).map Accepted.receiptAmt).sum <
      txnA.credit - 1/100 :=
  ⟨(C3_greedy_scan bankA txnA ⟨[], []⟩).1,
   (C3_greedy_scan bankA txnA ⟨[], []⟩).2 0 (by
     norm_num [matchOne, matchLoop, bankGroupsFor, bankA, txnA,
       List.enum, List.enumFrom, List.filter_cons])⟩

/-- Claim C1: for a transaction with a non-empty MatchGroup of size N the
Row Exploder emits exactly N rows in acceptance order; the credit amount
is populated only on the first row (blank on all later rows), and the
tally — `credit − Σ receipt amounts` rounded to 2 decimal places — is
populated only on the last row (blank on all earlier rows). -/
theorem C1_row_explosion (t : NboRow) (g : List Accepted) (hg : g ≠ []) :
    (explodeRows t g).length = g.length ∧
    ∀ i a, g[i]? = some a →
      ∃ r, (explodeRows t g)[i]? = some r ∧
        r.creditAmount = (if i = 0 then Cell.val t.credit else Cell.blank) ∧
        r.receiptAmount = Cell.val a.receiptAmt ∧
        r.oracleNumber = Cell.val a.oracleNum ∧
        r.tally = (if i = g.length - 1 then
          Cell.val (round2 (t.credit - (g.map Accepted.receiptAmt).sum))
          else Cell.blank) := by
  rw [explodeRows, if_neg hg]
  constructor
  · simp
  · intro i a ha
    refine ⟨matchedRow t ((g.map Accepted.receiptAmt).sum) g.length i a, ?_, rfl, rfl, rfl, rfl⟩
    simp [List.getElem?_map, List.getElem?_enum, ha]

/-- Witness for C1 at Scenario A: the exploded sheet has two rows, and the
second (last) row shows a blank credit amount, receipt amount 50, id 1002,
and tally `round2 (150 − 150) = 0`. -/
theorem C1_row_explosion_witness :
    (explodeRows txnA groupA).length = groupA.length ∧
    ∃ r, (explodeRows txnA groupA)[1]? = some r ∧
      r.creditAmount = Cell.blank ∧
      r.receiptAmount = Cell.val 50 ∧
      r.oracleNumber = Cell.val 1002 ∧
      r.tally = Cell.val (round2 (txnA.credit - ((groupA.map Accepted.receiptAmt).sum))) :=
  ⟨(C1_row_explosion txnA groupA (by decide)).1,
   (C1_row_explosion txnA groupA (by decide)).2 1
     ⟨1, 50, 1002, Option.none, Option.none⟩ rfl⟩

/-- A candidate walk in which every candidate is skippable — position
consumed, id unparsable, or id consumed — accepts nothing and leaves the
state untouched. -/
theorem matchLoop_all_skip (credit : ℚ) :
    ∀ (cands : List (Nat × BankRow)) (st : MatchState) (acc : List Accepted) (cum : ℚ),
    (∀ p ∈ cands, p.1 ∈ st.usedIdx ∨ p.2.oracleParse = Option.none ∨
      ∃ n, p.2.oracleParse = some n ∧ n ∈ st.usedIds) →
    matchLoop credit cands st acc cum = (acc, st) := by
  intro cands
  induction cands with
  | nil => intro st acc cum _; rfl
  | cons c rest ih =>
    obtain ⟨i, b⟩ := c
    intro st acc cum hall
    have hrest : ∀ p ∈ rest, p.1 ∈ st.usedIdx ∨ p.2.oracleParse = Option.none ∨
        ∃ n, p.2.oracleParse = some n ∧ n ∈ st.usedIds :=
      fun p hp => hall p (List.mem_cons_of_mem _ hp)
    rcases hall (i, b) (List.mem_cons_self _ _) with hidx | hob | ⟨n, hob, hnid⟩
    · rw [matchLoop]
      rw [if_pos hidx]
      exact ih st acc cum hrest
    · have hob' : b.oracleParse = Option.none := hob
      rw [matchLoop]
      by_cases hidx : i ∈ st.usedIdx
      · rw [if_pos hidx]
        exact ih st acc cum hrest
      · rw [if_neg hidx]
        simp only [hob']
        exact ih st acc cum hrest
    · have hob' : b.oracleParse = some n := hob
      rw [matchLoop]
      by_cases hidx : i ∈ st.usedIdx
      · rw [if_pos hidx]
        exact ih st acc cum hrest
      · rw [if_neg hidx]
        simp only [hob']
        rw [if_pos hnid]
        exact ih st acc cum hrest

/-- A candidate walk that can still reach an available candidate with a
fresh, parsable settlement id accepts at least one candidate. -/
theorem matchLoop_ne_nil (credit : ℚ) :
    ∀ (cands : List (Nat × BankRow)) (st : MatchState) (acc : List Accepted) (cum : ℚ),
    (∃ p ∈ cands, p.1 ∉ st.usedIdx ∧
      ∃ n, p.2.oracleParse = some n ∧ n ∉ st.usedIds) →
    (matchLoop credit cands st acc cum).1 ≠ [] := by
  intro cands
  induction cands with
  | nil =>
    intro st acc cum h
    obtain ⟨p, hp, _⟩ := h
    cases hp
  | cons c rest ih =>
    obtain ⟨i, b⟩ := c
    intro st acc cum h
    by_cases hidx : i ∈ st.usedIdx
    · rw [matchLoop, if_pos hidx]
      obtain ⟨p, hp, hgood⟩ := h
      rcases List.mem_cons.mp hp with rfl | hp'
      · exact absurd hidx hgood.1
      · exact ih st acc cum ⟨p, hp', hgood⟩
    · rcases hob : b.oracleParse with _ | n
      · rw [matchLoop, if_neg hidx]
        simp only [hob]
        obtain ⟨p, hp, hgood⟩ := h
        rcases List.mem_cons.mp hp with rfl | hp'
        · obtain ⟨n, hn, _⟩ := hgood.2
          rw [hob] at hn
          cases hn
        · exact ih st acc cum ⟨p, hp', hgood⟩
      · by_cases hnid : n ∈ st.usedIds
        · rw [matchLoop, if_neg hidx]
          simp only [hob]
          rw [if_pos hnid]
          obtain ⟨p, hp, hgood⟩ := h
          rcases List.mem_cons.mp hp with rfl | hp'
          · obtain ⟨m, hm, hmid⟩ := hgood.2
            rw [hob] at hm
            cases hm
            exact absurd hnid hmid
          · exact ih st acc cum ⟨p, hp', hgood⟩
        · by_cases hbr : credit - 1/100 ≤ cum + b.receiptParse.getD 0
          · rw [matchLoop, if_neg hidx]
            simp only [hob]
            rw [if_neg hnid, if_pos hbr]
            simp
          · rw [matchLoop, if_neg hidx]
            simp only [hob]
            rw [if_neg hnid, if_neg hbr]
            obtain ⟨new, h1, _⟩ := matchLoop_spec credit rest
              ⟨n :: st.usedIds, i :: st.usedIdx⟩
              (acc ++ [⟨i, b.receiptParse.getD 0, n, b.currency, b.accountNumber⟩])
              (cum + b.receiptParse.getD 0)
            rw [h1]
            simp

/-- A run yields exactly one group per transaction, in input order. -/
theorem matchRun_shape (bank : List BankRow) :
    ∀ (txns : List NboRow) (st : MatchState),
    (matchRun bank txns st).length = txns.length ∧
    (matchRun bank txns st).map Prod.fst = txns := by
  intro txns
  induction txns with
  | nil => intro st; exact ⟨rfl, rfl⟩
  | cons t ts ih =>
    intro st
    rw [matchRun]
    refine ⟨?_, ?_⟩
    · simpa using (ih (matchOne bank t st).2).1
    · simpa using (ih (matchOne bank t st).2).2

/-- Claim C6: for a transaction with an empty MatchGroup the Row Exploder
emits exactly one row in which settlement id, currency, account number,
receipt amount and tally are all null, while the credit amount, reference,
description and the date-derived fields are present from the
transaction. -/
theorem C6_unmatched_single_row (t : NboRow) :
    explodeRows t [] = [buildOutputRow t] ∧
    (buildOutputRow t).oracleNumber = Cell.null ∧
    (buildOutputRow t).currency = Option.none ∧
    (buildOutputRow t).accountNumber = Option.none ∧
    (buildOutputRow t).receiptAmount = Cell.null ∧
    (buildOutputRow t).tally = Cell.null ∧
    (buildOutputRow t).creditAmount = Cell.val t.credit ∧
    (buildOutputRow t).ref = t.ref ∧
    (buildOutputRow t).desc = t.desc ∧
    (buildOutputRow t).transactionDate = t.date ∧
    (buildOutputRow t).exchangeRateDate = t.date ∧
    (buildOutputRow t).clearedDate = t.date ∧
    (buildOutputRow t).valueDate = t.date ∧
    (buildOutputRow t).glDate = t.date :=
  ⟨by rw [explodeRows, if_pos rfl],
   rfl, rfl, rfl, rfl, rfl, rfl, rfl, rfl, rfl, rfl, rfl, rfl, rfl⟩

/-- Claim C8: matching is total and never errors — a transaction with no
candidates for its description, or whose candidates are all consumed or
invalid, yields an empty MatchGroup, and a whole run yields exactly one
group per transaction, in input order, for every input. -/
theorem C8_matching_never_fails (bank : List BankRow) (txns : List NboRow)
    (t : NboRow) (st : MatchState) :
    (bankGroupsFor bank t.desc = [] → (matchOne bank t st).1 = []) ∧
    ((∀ p ∈ bankGroupsFor bank t.desc, p.1 ∈ st.usedIdx ∨
        p.2.oracleParse = Option.none ∨
        ∃ n, p.2.oracleParse = some n ∧ n ∈ st.usedIds) →
      (matchOne bank t st).1 = []) ∧
    (matchRun bank txns st).length = txns.length ∧
    (matchRun bank txns st).map Prod.fst = txns := by
  refine ⟨?_, ?_, (matchRun_shape bank txns st).1, (matchRun_shape bank txns st).2⟩
  · intro h
    rw [matchOne, h]
    rfl
  · intro h
    rw [matchOne, matchLoop_all_skip t.credit _ st [] 0 h]

/-- Witness for C8: with consumed id 5 and an unparsable second id, the
transaction for `X` yields an empty MatchGroup, and the run still yields
one group for its one transaction. -/
theorem C8_matching_never_fails_witness :
    (matchOne bankC4 txnC4 ⟨[5], []⟩).1 = [] ∧
    (matchRun bankC4 [txnC4] ⟨[5], []⟩).length = 1 :=
  ⟨(C8_matching_never_fails bankC4 [txnC4] txnC4 ⟨[5], []⟩).2.1 (by decide),
   (C8_matching_never_fails bankC4 [txnC4] txnC4 ⟨[5], []⟩).2.2.1⟩

/-- Claim C4: an accepted candidate has both its settlement id and its
ledger position marked consumed, whereas a candidate skipped because its
id fails coercion or its id is already consumed does not get its position
marked: if its position was available before the transaction, it is still
available afterwards. -/
theorem C4_skip_keeps_position_free (bank : List BankRow) (t : NboRow) (st : MatchState) :
    (∀ a ∈ (matchOne bank t st).1,
      a.oracleNum ∈ (matchOne bank t st).2.usedIds ∧
      a.pos ∈ (matchOne bank t st).2.usedIdx) ∧
    (∀ i b, (i, b) ∈ bankGroupsFor bank t.desc → i ∉ st.usedIdx →
      (b.oracleParse = Option.none ∨
        ∃ n, b.oracleParse = some n ∧ n ∈ st.usedIds) →
      i ∉ (matchOne bank t st).2.usedIdx) := by
  have hspec := matchOne_spec bank t st
  constructor
  · intro a ha
    constructor
    · rw [hspec.ids_eq]
      exact List.mem_append_left _ (List.mem_reverse.mpr
        (List.mem_map_of_mem Accepted.oracleNum ha))
    · rw [hspec.idx_eq]
      exact List.mem_append_left _ (List.mem_reverse.mpr
        (List.mem_map_of_mem Accepted.pos ha))
  · intro i b hmem hnotidx hbad hin
    rw [hspec.idx_eq] at hin
    rcases List.mem_append.mp hin with hin' | hin'
    · obtain ⟨a, ha, hpos⟩ := List.mem_map.mp (List.mem_reverse.mp hin')
      obtain ⟨bb, hbb, hparse, _⟩ := hspec.src a ha
      rw [hpos] at hbb
      have hbbeq : bb = b :=
        keyed_lookup_unique (bankGroupsFor_keys_nodup bank t.desc) hbb hmem
      subst hbbeq
      rcases hbad with hnone | ⟨n, hsome, hnid⟩
      · rw [hnone] at hparse
        cases hparse
      · rw [hsome] at hparse
        have : a.oracleNum = n := by
          injection hparse with h
          exact h.symm
        exact (hspec.fresh a ha).1 (this ▸ hnid)
    · exact hnotidx hin'

/-- Witness for C4: with id 5 already consumed and position 1 unparsable,
position 1 (the unparsable-id record) stays out of the consumed-position
set after matching. -/
theorem C4_skip_keeps_position_free_witness :
    1 ∉ (matchOne bankC4 txnC4 ⟨[5], []⟩).2.usedIdx :=
  (C4_skip_keeps_position_free bankC4 txnC4 ⟨[5], []⟩).2 1
    ⟨"X", Option.none, some 20, Option.none, Option.none⟩
    (by decide) (by decide) (Or.inl rfl)

/-- Claim C5: a candidate whose receipt amount fails numeric coercion is
still accepted — it enters the MatchGroup with receipt amount 0
(contributing zero to the cumulative sum), and both its settlement id and
its ledger position are marked consumed. -/
theorem C5_amount_default_zero (credit : ℚ) (rest : List (Nat × BankRow))
    (st : MatchState) (i : Nat) (b : BankRow) (n : Int)
    (h1 : i ∉ st.usedIdx) (h2 : b.oracleParse = some n) (h3 : n ∉ st.usedIds)
    (h4 : b.receiptParse = Option.none) :
    ∃ tl, (matchLoop credit ((i, b) :: rest) st [] 0).1 =
        ⟨i, 0, n, b.currency, b.accountNumber⟩ :: tl ∧
      n ∈ (matchLoop credit ((i, b) :: rest) st [] 0).2.usedIds ∧
      i ∈ (matchLoop credit ((i, b) :: rest) st [] 0).2.usedIdx := by
  have hgd : b.receiptParse.getD 0 = 0 := by rw [h4]; rfl
  by_cases hbr : credit - 1/100 ≤ 0 + b.receiptParse.getD 0
  · have he : matchLoop credit ((i, b) :: rest) st [] 0 =
        ([⟨i, b.receiptParse.getD 0, n, b.currency, b.accountNumber⟩],
          ⟨n :: st.usedIds, i :: st.usedIdx⟩) := by
      rw [matchLoop, if_neg h1]
      simp only [h2]
      rw [if_neg h3, if_pos hbr]
      rfl
    rw [he, hgd]
    exact ⟨[], rfl, List.mem_cons_self _ _, List.mem_cons_self _ _⟩
  · have he : matchLoop credit ((i, b) :: rest) st [] 0 =
        matchLoop credit rest ⟨n :: st.usedIds, i :: st.usedIdx⟩
          ([⟨i, b.receiptParse.getD 0, n, b.currency, b.accountNumber⟩])
          (0 + b.receiptParse.getD 0) := by
      rw [matchLoop, if_neg h1]
      simp only [h2]
      rw [if_neg h3, if_neg hbr]
      rfl
    rw [he, hgd]
    obtain ⟨new, hr1, hr2⟩ := matchLoop_spec credit rest
      ⟨n :: st.usedIds, i :: st.usedIdx⟩
      ([⟨i, (0 : ℚ), n, b.currency, b.accountNumber⟩]) (0 + 0)
    refine ⟨new, by simpa using hr1, ?_, ?_⟩
    · rw [hr2.ids_eq]
      exact List.mem_append_right _ (List.mem_cons_self _ _)
    · rw [hr2.idx_eq]
      exact List.mem_append_right _ (List.mem_cons_self _ _)

/-- Witness for C5: a head candidate at position 3 with settlement id 9
and an unparsable receipt amount is accepted with amount 0 and both id 9
and position 3 are consumed. -/
theorem C5_amount_default_zero_witness :
    ∃ tl, (matchLoop 100
        [(3, ⟨"X", some 9, Option.none, Option.none, Option.none⟩)] ⟨[], []⟩ [] 0).1 =
        ⟨3, 0, 9, Option.none, Option.none⟩ :: tl ∧
      (9 : Int) ∈ (matchLoop 100
        [(3, ⟨"X", some 9, Option.none, Option.none, Option.none⟩)] ⟨[], []⟩ [] 0).2.usedIds ∧
      3 ∈ (matchLoop 100
        [(3, ⟨"X", some 9, Option.none, Option.none, Option.none⟩)] ⟨[], []⟩ [] 0).2.usedIdx :=
  C5_amount_default_zero 100 [] ⟨[], []⟩ 3
    ⟨"X", some 9, Option.none, Option.none, Option.none⟩ 9
    (by decide) rfl (by decide) rfl

/-- Claim C10: the stop threshold is tested only after a candidate has
been accepted, so a transaction with at least one available, valid
candidate always accepts at least one settlement record, whatever the
credit amount; concretely, with credit 0 (threshold `−0.01` already
satisfied by the empty sum) the overshooting record of amount 100 is
still accepted and the emitted tally is the negative value −100. -/
theorem C10_threshold_after_accept (bank : List BankRow) (t : NboRow) (st : MatchState)
    (h : ∃ p ∈ bankGroupsFor bank t.desc, p.1 ∉ st.usedIdx ∧
      ∃ n, p.2.oracleParse = some n ∧ n ∉ st.usedIds) :
    (matchOne bank t st).1 ≠ [] ∧
    (explodeRows txnC10 (matchOne bankC10 txnC10 ⟨[], []⟩).1).map OutputRow.tally =
      [Cell.val (-100)] ∧
    ((-100 : ℚ) < 0) ∧ txnC10.credit - 1/100 ≤ 0 := by
  refine ⟨?_, ?_, by norm_num, by norm_num [txnC10]⟩
  · rw [matchOne]
    exact matchLoop_ne_nil t.credit _ st [] 0 h
  · have hm : (matchOne bankC10 txnC10 ⟨[], []⟩).1 =
        [⟨0, 100, 77, Option.none, Option.none⟩] := by
      norm_num [matchOne, matchLoop, bankGroupsFor, bankC10, txnC10,
        List.enum, List.enumFrom, List.filter_cons]
    rw [hm]
    norm_num [explodeRows, matchedRow, buildOutputRow, txnC10, round2, round_eq,
      List.enum, List.enumFrom]

/-- Witness for C10: the overshoot fixture itself has an available valid
candidate, so its group is non-empty and the negative tally is emitted. -/
theorem C10_threshold_after_accept_witness :
    (matchOne bankC10 txnC10 ⟨[], []⟩).1 ≠ [] ∧
    (explodeRows txnC10 (matchOne bankC10 txnC10 ⟨[], []⟩).1).map OutputRow.tally =
      [Cell.val (-100)] ∧
    ((-100 : ℚ) < 0) ∧ txnC10.credit - 1/100 ≤ 0 :=
  C10_threshold_after_accept bankC10 txnC10 ⟨[], []⟩ (by decide)

/-- The first-occurrence filter yields rows with pairwise-distinct keys,
none of which was already seen. -/
theorem dedupGo_nodup : ∀ (l : List OutputRow) (seen : List (String × Cell Int)),
    ((dedupGo seen l).map dedupKey).Nodup ∧ ∀ r ∈ dedupGo seen l, dedupKey r ∉ seen := by
  intro l
  induction l with
  | nil => intro seen; exact ⟨List.nodup_nil, by intro r hr; cases hr⟩
  | cons r rs ih =>
    intro seen
    rw [dedupGo]
    by_cases hs : dedupKey r ∈ seen
    · rw [if_pos hs]
      exact ih seen
    · rw [if_neg hs]
      obtain ⟨ihn, ihs⟩ := ih (dedupKey r :: seen)
      refine ⟨?_, ?_⟩
      · simp only [List.map_cons, List.nodup_cons]
        refine ⟨?_, ihn⟩
        intro hmem
        obtain ⟨s, hsm, hse⟩ := List.mem_map.mp hmem
        exact ihs s hsm (hse ▸ List.mem_cons_self _ _)
      · intro s hsm
        rcases List.mem_cons.mp hsm with rfl | hsm'
        · exact hs
        · intro hmem
          exact ihs s hsm' (List.mem_cons_of_mem _ hmem)

/-- The first-occurrence filter only removes rows: the survivors are a
subsequence of the input, in their original order. -/
theorem dedupGo_sublist : ∀ (l : List OutputRow) (seen : List (String × Cell Int)),
    List.Sublist (dedupGo seen l) l := by
  intro l
  induction l with
  | nil => intro seen; exact List.Sublist.refl []
  | cons r rs ih =>
    intro seen
    rw [dedupGo]
    by_cases hs : dedupKey r ∈ seen
    · rw [if_pos hs]
      exact (ih seen).trans (List.sublist_cons_self r rs)
    · rw [if_neg hs]
      exact List.Sublist.cons₂ r (ih (dedupKey r :: seen))

/-- Every key of the input either was already seen or survives. -/
theorem dedupGo_covers : ∀ (l : List OutputRow) (seen : List (String × Cell Int)),
    ∀ r ∈ l, dedupKey r ∈ seen ∨ ∃ s ∈ dedupGo seen l, dedupKey s = dedupKey r := by
  intro l
  induction l with
  | nil => intro seen r hr; cases hr
  | cons q rs ih =>
    intro seen r hr
    rw [dedupGo]
    by_cases hs : dedupKey q ∈ seen
    · rw [if_pos hs]
      rcases List.mem_cons.mp hr with rfl | hr'
      · exact Or.inl hs
      · exact ih seen r hr'
    · rw [if_neg hs]
      rcases List.mem_cons.mp hr with rfl | hr'
      · exact Or.inr ⟨r, List.mem_cons_self _ _, rfl⟩
      · rcases ih (dedupKey q :: seen) r hr' with hseen | ⟨s, hsm, hse⟩
        · rcases List.mem_cons.mp hseen with heq | hseen'
          · exact Or.inr ⟨q, List.mem_cons_self _ _, heq.symm⟩
          · exact Or.inl hseen'
        · exact Or.inr ⟨s, List.mem_cons_of_mem _ hsm, hse⟩

/-- A row whose key was not yet seen and is not shared by any earlier row
of the input survives the first-occurrence filter. -/
theorem dedupGo_keeps_first :
    ∀ (l1 : List OutputRow) (r : OutputRow) (l2 : List OutputRow)
      (seen : List (String × Cell Int)),
    dedupKey r ∉ seen → (∀ s ∈ l1, dedupKey s ≠ dedupKey r) →
    r ∈ dedupGo seen (l1 ++ r :: l2) := by
  intro l1
  induction l1 with
  | nil =>
    intro r l2 seen hseen _
    rw [List.nil_append, dedupGo, if_neg hseen]
    exact List.mem_cons_self _ _
  | cons q qs ih =>
    intro r l2 seen hseen hne
    rw [List.cons_append, dedupGo]
    by_cases hs : dedupKey q ∈ seen
    · rw [if_pos hs]
      exact ih r l2 seen hseen (fun s hsm => hne s (List.mem_cons_of_mem _ hsm))
    · rw [if_neg hs]
      refine List.mem_cons_of_mem _ (ih r l2 (dedupKey q :: seen) ?_
        (fun s hsm => hne s (List.mem_cons_of_mem _ hsm)))
      intro hmem
      rcases List.mem_cons.mp hmem with heq | hmem'
      · exact hne q (List.mem_cons_self _ _) heq.symm
      · exact hseen hmem'

/-- Renumbering keeps each row in place, replacing only its line number
with its 1-based position. -/
theorem renumber_spec (l : List OutputRow) :
    (renumber l).length = l.length ∧
    ∀ i, (renumber l)[i]? = l[i]?.map (fun (r : OutputRow) => { r with lineNo := some (i + 1) }) := by
  constructor
  · simp [renumber]
  · intro i
    simp only [renumber, List.getElem?_map, List.getElem?_enum]
    cases l[i]? <;> rfl

/-- Claim C7: the Deduplicator drops every row whose (reference,
settlement id) pair equals that of an earlier-kept row — the survivors
are the first occurrences, in input order, with pairwise-distinct keys,
and every input key is still represented — and the Renumberer then
assigns line numbers 1..N contiguously over the survivors in their
current order, discarding any prior numbering. -/
theorem C7_dedup_and_renumber (rows : List OutputRow) :
    ((dedup rows).map dedupKey).Nodup ∧
    List.Sublist (dedup rows) rows ∧
    (∀ r ∈ rows, ∃ s ∈ dedup rows, dedupKey s = dedupKey r) ∧
    (∀ l1 (r : OutputRow) l2, rows = l1 ++ r :: l2 →
      (∀ s ∈ l1, dedupKey s ≠ dedupKey r) → r ∈ dedup rows) ∧
    (renumber (dedup rows)).length = (dedup rows).length ∧
    ∀ i, (renumber (dedup rows))[i]? =
      (dedup rows)[i]?.map (fun (r : OutputRow) => { r with lineNo := some (i + 1) }) := by
  refine ⟨(dedupGo_nodup rows []).1, dedupGo_sublist rows [], ?_, ?_,
    (renumber_spec (dedup rows)).1, (renumber_spec (dedup rows)).2⟩
  · intro r hr
    rcases dedupGo_covers rows [] r hr with hseen | hs
    · cases hseen
    · exact hs
  · intro l1 r l2 heq hne
    rw [dedup, heq]
    exact dedupGo_keeps_first l1 r l2 [] (by intro h; cases h) hne

/-- Witness for C7: of two rows with the same (reference, settlement id)
key the first survives and the surviving keys are pairwise distinct. -/
theorem C7_dedup_and_renumber_witness :
    ((dedup [buildOutputRow txnA, buildOutputRow txnA]).map dedupKey).Nodup ∧
    buildOutputRow txnA ∈ dedup [buildOutputRow txnA, buildOutputRow txnA] :=
  ⟨(C7_dedup_and_renumber [buildOutputRow txnA, buildOutputRow txnA]).1,
   (C7_dedup_and_renumber [buildOutputRow txnA, buildOutputRow txnA]).2.2.2.1
     [] (buildOutputRow txnA) [buildOutputRow txnA] rfl
     (by intro s hs; cases hs)⟩

/-- An empty MatchGroup explodes to exactly the bare template row. -/
theorem explodeRows_nil (t : NboRow) : explodeRows t [] = [buildOutputRow t] := by
  rw [explodeRows, if_pos rfl]

/-- A transaction whose description has no candidates matches nothing and
leaves the consumption state unchanged. -/
theorem matchOne_empty (bank : List BankRow) (t : NboRow) (st : MatchState)
    (h : bankGroupsFor bank t.desc = []) : matchOne bank t st = ([], st) := by
  rw [matchOne, h]
  rfl

/-- Claim C9: because unmatched transactions produce a row whose
settlement id is null, the Deduplicator also collapses unmatched rows —
if two transactions with the same reference both have empty MatchGroups,
only the first transaction's row survives the pipeline; the second is
silently dropped. -/
theorem C9_unmatched_rows_collapse (bank : List BankRow) (t1 t2 : NboRow)
    (h1 : bankGroupsFor bank t1.desc = [])
    (h2 : bankGroupsFor bank t2.desc = [])
    (href : t1.ref = t2.ref) :
    pipeline bank [t1, t2] = [{ buildOutputRow t1 with lineNo := some 1 }] := by
  have e1 : matchOne bank t1 ⟨[], []⟩ = ([], ⟨[], []⟩) := matchOne_empty bank t1 _ h1
  have e2 : matchOne bank t2 ⟨[], []⟩ = ([], ⟨[], []⟩) := matchOne_empty bank t2 _ h2
  have hkey : dedupKey (buildOutputRow t2) ∈ [dedupKey (buildOutputRow t1)] := by
    simp [dedupKey, buildOutputRow, href]
  rw [pipeline, allRows]
  simp only [matchRun, e1, e2, List.map_cons, List.map_nil, explodeRows_nil]
  simp only [List.flatten_cons, List.flatten_nil, List.append_nil,
    List.singleton_append]
  rw [dedup, dedupGo, if_neg (List.not_mem_nil _), dedupGo, if_pos hkey, dedupGo]
  simp [renumber, List.enum, List.enumFrom]

/-- Witness for C9: two unmatched transactions sharing reference `R`
against an empty settlement ledger produce a single output row. -/
theorem C9_unmatched_rows_collapse_witness :
    pipeline [] [⟨"d1", "R", "A", 5⟩, ⟨"d2", "R", "B", 7⟩] =
      [{ buildOutputRow ⟨"d1", "R", "A", 5⟩ with lineNo := some 1 }] :=
  C9_unmatched_rows_collapse [] ⟨"d1", "R", "A", 5⟩ ⟨"d2", "R", "B", 7⟩ rfl rfl rfl

end NBO
